import Mathlib

/-!
Verification of the release-diff and work-item-aggregation pipeline of the
ccp-releasemanager repository (TypeScript).  The definitions below are a
shallow embedding of the source code: `calculateNewVersion` and
`processReleases` from `ExportBar` (the variant creating release tags),
`calculateNewVersion` from `VersionConfig` (textually identical), and
`getLatestReleaseVersion`, `resolveTagCommitId`, `getCommitsBetweenTags`
from `azureDevOpsService.ts`.  Remote HTTP calls are modelled as oracle
functions returning `Except String` results (an `error` value models a
thrown/rejected promise, after the retry wrapper is exhausted); remote
invocations performed by the pipeline are additionally recorded in an
explicit call trace so that statements about which stages run are
expressible.
-/

namespace ReleaseManager

def digitsToNatGo : Nat → List Char → Option Nat
  | n, [] => some n
  | n, c :: cs => if c.isDigit then digitsToNatGo (n * 10 + (c.toNat - 48)) cs else none

/-- Decimal value of a digit string; `none` when a non-digit occurs. -/
def digitsToNat (l : List Char) : Option Nat :=
  digitsToNatGo 0 l

/-- JS `Number(s)` restricted to the decimal-integer strings this code
feeds it (version components and regex captures): `""` parses to `0`,
an optional minus sign followed by digits parses to the signed value,
and anything else is `NaN`, modelled as `none`. -/
def jsNumber (s : String) : Option Int :=
  match s.data with
  | [] => some 0
  | c :: rest =>
      if c = '-' then
        if rest.isEmpty then none
        else (digitsToNat rest).map (fun n => -(n : Int))
      else (digitsToNat (c :: rest)).map (fun n => (n : Int))

/-- JS `x + 1` where `x` may be `NaN`/`undefined` (both modelled `none`). -/
def jsAddOne : Option Int → Option Int
  | none => none
  | some n => some (n + 1)

/-- String interpolation of a JS number: `NaN` prints as `"NaN"`. -/
def jsShow : Option Int → String
  | none => "NaN"
  | some n => toString n

/-- JS `String.prototype.split` with a one-character separator, on the
character list of the string.  `"".split(sep)` is `[""]`. -/
def jsSplitChar (sep : Char) : List Char → List (List Char)
  | [] => [[]]
  | c :: rest =>
    if c = sep then [] :: jsSplitChar sep rest
    else
      match jsSplitChar sep rest with
      | [] => [[c]]
      | g :: gs => (c :: g) :: gs

/-- JS `s.split(sep)` for a one-character separator. -/
def jsSplit (s : String) (sep : Char) : List String :=
  (jsSplitChar sep s.data).map (fun l => String.mk l)

/-- Bump selection (`'major' | 'minor'` in `azureTypes.ts`). -/
inductive BumpType where
  | major
  | minor
deriving DecidableEq, Repr

/-- Model of `calculateNewVersion` from `ExportBar` / `VersionConfig`:

    if (!currentVersion || currentVersion === 'No releases' || currentVersion === 'Error loading')
      return bumpType === 'major' ? '1.0' : '0.1';
    const [major, minor] = currentVersion.split('.').map(Number);
    if (bumpType === 'major') return `{major + 1}.0`;
    else return `{major}.{minor + 1}`;

`none` models an `undefined` current version; the empty string is falsy
in JS and therefore also takes the sentinel branch.  A missing second
component of the destructuring is `undefined`, which the subsequent
`minor + 1` turns into `NaN`; both are modelled by `none`. -/
def calculateNewVersion (currentVersion : Option String) (bumpType : BumpType) : String :=
  match currentVersion with
  | none => if bumpType = BumpType.major then "1.0" else "0.1"
  | some cv =>
    if cv = "" ∨ cv = "No releases" ∨ cv = "Error loading" then
      if bumpType = BumpType.major then "1.0" else "0.1"
    else
      let parts := (jsSplit cv '.').map jsNumber
      let major := parts.getD 0 none
      let minor := parts.getD 1 none
      if bumpType = BumpType.major then
        jsShow (jsAddOne major) ++ ".0"
      else
        jsShow major ++ "." ++ jsShow (jsAddOne minor)

/-- Git ref from `azureTypes.ts`: a symbolic name plus the object id it
points to. -/
structure GitRef where
  name : String
  objectId : String
deriving DecidableEq, Repr

/-- Explicit work-item link carried on a commit record (`WorkItemReference`
in `azureTypes.ts`). -/
structure WorkItemReference where
  id : String
  url : String
deriving DecidableEq, Repr

/-- Commit record (`GitCommit` in `azureTypes.ts`); the author record is kept
opaque and the optional `workItems` field is modelled as a list, an absent
field behaving like the empty list (the code guards it with
`commit.workItems && commit.workItems.length > 0`). -/
structure GitCommit where
  commitId : String
  author : String
  comment : String
  workItems : List WorkItemReference
deriving DecidableEq, Repr

/-- Target of an annotated-tag object (`{ taggedObject: { objectId } }` as
returned by `getTagObject`). -/
structure TaggedObject where
  objectId : String
deriving DecidableEq, Repr

/-- Annotated-tag object fetched from the annotated-tags endpoint. -/
structure TagObject where
  taggedObject : TaggedObject
deriving DecidableEq, Repr

/-- Model of `resolveTagCommitId` from `azureDevOpsService.ts`: the outcome
of the remote `getTagObject` call is passed in as an `Except` value (an
`error` models the thrown failure); on success the annotated tag target is
returned, on any failure the tag ref object id itself is returned:

    try { const tagObject = await this.getTagObject(repositoryId, tagRef.objectId);
          return tagObject.taggedObject.objectId; }
    catch (error) { return tagRef.objectId; }
-/
def resolveTagCommitId (fetchTagObject : Except String TagObject) (tagRef : GitRef) : String :=
  match fetchTagObject with
  | .ok tagObject => tagObject.taggedObject.objectId
  | .error _ => tagRef.objectId

/-- Model of the truncation step of `getCommitsBetweenTags`
(`azureDevOpsService.ts`), applied to the fetched reverse-chronological
commit listing:

    const oldCommitIndex = response.value.findIndex((c) => c.commitId === oldCommitId);
    if (oldCommitIndex === -1) { return response.value; }
    return response.value.slice(0, oldCommitIndex);
-/
def getCommitsBetweenTagsFilter (commits : List GitCommit) (oldCommitId : String) : List GitCommit :=
  match commits.findIdx? (fun c => c.commitId = oldCommitId) with
  | none => commits
  | some i => commits.take i

theorem findIdx_first {p : GitCommit → Bool} :
    ∀ (l1 : List GitCommit) (c : GitCommit) (l2 : List GitCommit),
      p c = true → (∀ x ∈ l1, p x = false) →
      List.findIdx? p (l1 ++ c :: l2) = some l1.length := by
  intro l1 c l2 hc h
  induction l1 with
  | nil => simp [List.findIdx?_cons, hc]
  | cons a l1 ih =>
    have ha : p a = false := h a (by simp)
    have := ih (fun x hx => h x (by simp [hx]))
    simp [List.findIdx?_cons, ha, this]

/-- C3: for every tag-to-tag range computation over a fetched
reverse-chronological commit list, if the old tag's resolved commit occurs
in the list (first occurrence at the position after `l1`), the result is
exactly the commits strictly before that position; if the old commit does
not occur at all, the result is the entire fetched list. -/
theorem getCommitsBetweenTagsFilter_spec
    (commits l1 l2 : List GitCommit) (c : GitCommit) (oldCommitId : String)
    (habsent : ∀ x ∈ commits, x.commitId ≠ oldCommitId)
    (hc : c.commitId = oldCommitId)
    (hfirst : ∀ x ∈ l1, x.commitId ≠ oldCommitId) :
    getCommitsBetweenTagsFilter commits oldCommitId = commits
    ∧ getCommitsBetweenTagsFilter (l1 ++ c :: l2) oldCommitId = l1 := by
  constructor
  · have hnone : List.findIdx? (fun x => x.commitId = oldCommitId) commits = none := by
      rw [List.findIdx?_eq_none_iff]
      intro x hx
      simp [habsent x hx]
    simp [getCommitsBetweenTagsFilter, hnone]
  · have hfind : List.findIdx? (fun x => x.commitId = oldCommitId) (l1 ++ c :: l2)
        = some l1.length := by
      apply findIdx_first
      · simp [hc]
      · intro x hx
        simp [hfirst x hx]
    simp [getCommitsBetweenTagsFilter, hfind, List.take_left]

/-- Witness for `getCommitsBetweenTagsFilter_spec` on the listing
`[c5, c4, c3, c2, c1]` with old commit `c2`: no-occurrence case applied to a
disjoint listing, occurrence case giving `[c5, c4, c3]`. -/
theorem getCommitsBetweenTagsFilter_spec_witness :
    getCommitsBetweenTagsFilter
      [⟨"c9", "a", "m", []⟩] "c2" = [⟨"c9", "a", "m", []⟩]
    ∧ getCommitsBetweenTagsFilter
      [⟨"c5", "a", "m", []⟩, ⟨"c4", "a", "m", []⟩, ⟨"c3", "a", "m", []⟩,
        ⟨"c2", "a", "m", []⟩, ⟨"c1", "a", "m", []⟩] "c2"
      = [⟨"c5", "a", "m", []⟩, ⟨"c4", "a", "m", []⟩, ⟨"c3", "a", "m", []⟩] := by
  constructor
  · exact (getCommitsBetweenTagsFilter_spec [⟨"c9", "a", "m", []⟩] [] []
      ⟨"c2", "a", "m", []⟩ "c2" (by decide) (by decide) (by decide)).1
  · exact (getCommitsBetweenTagsFilter_spec []
      [⟨"c5", "a", "m", []⟩, ⟨"c4", "a", "m", []⟩, ⟨"c3", "a", "m", []⟩]
      [⟨"c1", "a", "m", []⟩] ⟨"c2", "a", "m", []⟩ "c2"
      (by decide) (by decide) (by decide)).2

/-- C7: tag dereferencing never raises to its caller (it is a total function
into plain commit-id strings); when fetching the annotated-tag object
succeeds the result is that object's target commit id, and on any fetch
failure the result is the tag ref's own object id, unchanged. -/
theorem resolveTagCommitId_fallback
    (fetchTagObject : Except String TagObject) (tagRef : GitRef) :
    (∀ t, fetchTagObject = .ok t →
      resolveTagCommitId fetchTagObject tagRef = t.taggedObject.objectId)
    ∧ (∀ e, fetchTagObject = .error e →
      resolveTagCommitId fetchTagObject tagRef = tagRef.objectId) := by
  constructor <;> intro x hx <;> subst hx <;> rfl

/-- Witness for `resolveTagCommitId_fallback`: a successful annotated-tag
fetch yields its target, a failed fetch yields the ref's own object id. -/
theorem resolveTagCommitId_fallback_witness :
    resolveTagCommitId (.ok ⟨⟨"c9"⟩⟩) ⟨"refs/tags/1.0", "t7"⟩ = "c9"
    ∧ resolveTagCommitId (.error "boom") ⟨"refs/tags/1.0", "t7"⟩ = "t7" := by
  exact ⟨(resolveTagCommitId_fallback (.ok ⟨⟨"c9"⟩⟩) ⟨"refs/tags/1.0", "t7"⟩).1 ⟨⟨"c9"⟩⟩ rfl,
    (resolveTagCommitId_fallback (.error "boom") ⟨"refs/tags/1.0", "t7"⟩).2 "boom" rfl⟩

/-- List-level model of JS `String.prototype.startsWith`. -/
def hasLead : List Char → List Char → Bool
  | [], _ => true
  | _ :: _, [] => false
  | p :: ps, c :: cs => p = c && hasLead ps cs

/-- Model of `ref.name.startsWith('refs/heads/release/')` from
`getLatestReleaseVersion`. -/
def isReleaseBranchRef (r : GitRef) : Bool :=
  hasLead "refs/heads/release/".data r.name.data

/-- Match a case-sensitive literal at the head of the input, returning the
remainder on success. -/
def matchLit : List Char → List Char → Option (List Char)
  | [], rest => some rest
  | _ :: _, [] => none
  | p :: ps, c :: cs => if c = p then matchLit ps cs else none

/-- Attempt of the regex `refs\/heads\/release\/(\d+\.\d+)\.x` at one fixed
position: the literal prefix, a maximal nonempty digit run, a dot, a second
maximal nonempty digit run, then the literal `.x`; the capture group
(`major.minor`) is returned.  Maximal-munch is equivalent to the
backtracking semantics here, because a shorter `\d+` run is necessarily
followed by a digit, never by the required `.`. -/
def matchReleaseAt (l : List Char) : Option String :=
  match matchLit "refs/heads/release/".data l with
  | none => none
  | some r =>
    match r.takeWhile Char.isDigit with
    | [] => none
    | d1 :: ds1 =>
      match r.dropWhile Char.isDigit with
      | '.' :: r2 =>
        match r2.takeWhile Char.isDigit with
        | [] => none
        | d2 :: ds2 =>
          match r2.dropWhile Char.isDigit with
          | '.' :: 'x' :: _ => some (String.mk ((d1 :: ds1) ++ '.' :: (d2 :: ds2)))
          | _ => none
      | _ => none

/-- Unanchored regex search: try the release-branch pattern at every
position, leftmost match wins (the name has already passed the
`startsWith` filter, so in practice the match is at position 0). -/
def releaseNameScan : List Char → Option String
  | [] => none
  | c :: rest =>
    match matchReleaseAt (c :: rest) with
    | some v => some v
    | none => releaseNameScan rest

/-- Model of `name.match(/refs\/heads\/release\/(\d+\.\d+)\.x/)` returning
the first capture group (`match[1]`), or `none` when the name does not
match. -/
def releaseNameCapture (s : String) : Option String :=
  releaseNameScan s.data

/-- Major/minor components of a version string, as the comparator computes
them: `split('.').map(Number)` with `none` for `NaN`/`undefined`. -/
def parseVersionNums (s : String) : Option Int × Option Int :=
  let parts := (jsSplit s '.').map jsNumber
  (parts.getD 0 none, parts.getD 1 none)

/-- JS subtraction where either side may be `NaN` (`none`). -/
def jsSub : Option Int → Option Int → Option Int
  | some x, some y => some (x - y)
  | _, _ => none

/-- JS `x || y` on numbers: `0` and `NaN` are falsy. -/
def jsOrNum : Option Int → Option Int → Option Int
  | some x, y => if x = 0 then y else some x
  | none, y => y

/-- Model of the sort comparator in `getLatestReleaseVersion`:

    (a, b) => { const [aMajor, aMinor] = a.split('.').map(Number);
                const [bMajor, bMinor] = b.split('.').map(Number);
                return bMajor - aMajor || bMinor - aMinor; }
-/
def verCmpDesc (a b : String) : Option Int :=
  jsOrNum (jsSub (parseVersionNums b).1 (parseVersionNums a).1)
    (jsSub (parseVersionNums b).2 (parseVersionNums a).2)

/-- Whether the comparator result is negative, i.e. the first argument sorts
strictly earlier in the descending order.  The comparator never yields `NaN`
on the digit captures this code feeds it; `none` is mapped to `false`. -/
def cmpIsNeg : Option Int → Bool
  | some x => x < 0
  | none => false

/-- Model of `getLatestReleaseVersion` from `azureDevOpsService.ts`, taking
the fetched ref list as input (the surrounding `try`/`catch` that maps a
refs-fetch failure to `null` is the caller's concern):

    const releaseBranches = refs
      .filter((ref) => ref.name.startsWith('refs/heads/release/'))
      .map((ref) => { const match = ref.name.match(/refs\/heads\/release\/(\d+\.\d+)\.x/);
                      return match ? match[1] : null; })
      .filter((v) => v !== null);
    if (releaseBranches.length === 0) return null;
    releaseBranches.sort((a, b) => ...);
    return releaseBranches[0];

The head of the stable descending sort is the earliest element that no
other element strictly precedes, which the fold below computes directly. -/
def getLatestReleaseVersion (refs : List GitRef) : Option String :=
  let releaseBranches :=
    (refs.filter isReleaseBranchRef).filterMap (fun r => releaseNameCapture r.name)
  match releaseBranches with
  | [] => none
  | h :: t => some (t.foldl (fun best x => if cmpIsNeg (verCmpDesc x best) then x else best) h)

/-- Specification-side reading of a two-component version string as an
integer pair (used only to state maximality; on the digit captures produced
by the release-branch pattern the `getD` defaults never fire). -/
def versionOf (s : String) : Int × Int :=
  (((parseVersionNums s).1).getD 0, ((parseVersionNums s).2).getD 0)

/-- Lexicographic order on (major, minor) pairs, compared numerically. -/
def lexLE (u v : Int × Int) : Prop :=
  u.1 < v.1 ∨ (u.1 = v.1 ∧ u.2 ≤ v.2)

/-- A string whose two dot-components both parse as numbers. -/
def ParsesTwo (s : String) : Prop :=
  ∃ M m : Int, parseVersionNums s = (some M, some m)

theorem digitsToNatGo_isSome :
    ∀ (l : List Char), (∀ c ∈ l, c.isDigit) → ∀ a : Nat, ∃ n, digitsToNatGo a l = some n := by
  intro l
  induction l with
  | nil => exact fun _ a => ⟨a, rfl⟩
  | cons c cs ih =>
    intro h a
    have hc : c.isDigit := h c (by simp)
    simpa [digitsToNatGo, hc] using ih (fun x hx => h x (by simp [hx])) _

theorem jsNumber_digits (l : List Char) (hne : l ≠ [])
    (hd : ∀ c ∈ l, c.isDigit) : ∃ n : Nat, jsNumber (String.mk l) = some (n : Int) := by
  match l, hne with
  | c :: cs, _ =>
    have hc : c.isDigit := hd c (by simp)
    have hdash : ¬(c = '-') := by
      intro h
      rw [h] at hc
      exact absurd hc (by decide)
    obtain ⟨n, hn⟩ := digitsToNatGo_isSome (c :: cs) hd 0
    exact ⟨n, by simp [jsNumber, hdash, digitsToNat, hn]⟩

theorem jsSplitChar_no_sep (sep : Char) :
    ∀ l : List Char, sep ∉ l → jsSplitChar sep l = [l] := by
  intro l
  induction l with
  | nil => intro _; rfl
  | cons c cs ih =>
    intro h
    have hc : ¬(c = sep) := fun hh => h (by simp [hh])
    have := ih (fun hh => h (by simp [hh]))
    simp [jsSplitChar, hc, this]

theorem jsSplitChar_append (sep : Char) :
    ∀ (l1 l2 : List Char), sep ∉ l1 →
      jsSplitChar sep (l1 ++ sep :: l2) = l1 :: jsSplitChar sep l2 := by
  intro l1
  induction l1 with
  | nil => intro l2 _; simp [jsSplitChar]
  | cons c cs ih =>
    intro l2 h
    have hc : ¬(c = sep) := fun hh => h (by simp [hh])
    have := ih l2 (fun hh => h (by simp [hh]))
    simp [jsSplitChar, hc, this]

theorem parseVersionNums_pair (d1 d2 : List Char) (h1 : d1 ≠ []) (h2 : d2 ≠ [])
    (hd1 : ∀ c ∈ d1, c.isDigit) (hd2 : ∀ c ∈ d2, c.isDigit) :
    ∃ M m : Int, parseVersionNums (String.mk (d1 ++ '.' :: d2)) = (some M, some m) := by
  have hno1 : '.' ∉ d1 := fun hc => absurd (hd1 _ hc) (by decide)
  have hno2 : '.' ∉ d2 := fun hc => absurd (hd2 _ hc) (by decide)
  obtain ⟨M, hM⟩ := jsNumber_digits d1 h1 hd1
  obtain ⟨m, hm⟩ := jsNumber_digits d2 h2 hd2
  refine ⟨M, m, ?_⟩
  simp [parseVersionNums, jsSplit, jsSplitChar_append '.' d1 d2 hno1,
    jsSplitChar_no_sep '.' d2 hno2, hM, hm]

theorem matchReleaseAt_parses (l : List Char) (v : String)
    (h : matchReleaseAt l = some v) : ParsesTwo v := by
  unfold matchReleaseAt at h
  split at h
  · exact absurd h (by simp)
  case _ r heq =>
    split at h
    · exact absurd h (by simp)
    case _ d1 ds1 htake1 =>
      split at h
      case _ r2 hdrop1 =>
        split at h
        · exact absurd h (by simp)
        case _ d2 ds2 htake2 =>
          split at h
          case _ rest hdrop2 =>
            obtain ⟨M, m, hMm⟩ := parseVersionNums_pair (d1 :: ds1) (d2 :: ds2)
              (by simp) (by simp)
              (fun c hc => List.mem_takeWhile_imp (htake1 ▸ hc))
              (fun c hc => List.mem_takeWhile_imp (htake2 ▸ hc))
            have hv : v = String.mk ((d1 :: ds1) ++ '.' :: (d2 :: ds2)) :=
              (Option.some.injEq _ _ ▸ h).symm
            exact ⟨M, m, hv ▸ hMm⟩
          · exact absurd h (by simp)
      · exact absurd h (by simp)

theorem releaseNameScan_parses :
    ∀ (l : List Char) (v : String), releaseNameScan l = some v → ParsesTwo v := by
  intro l
  induction l with
  | nil => intro v h; exact absurd h (by simp [releaseNameScan])
  | cons c rest ih =>
    intro v h
    unfold releaseNameScan at h
    split at h
    case _ w hw =>
      cases h
      exact matchReleaseAt_parses _ _ hw
    · exact ih v h

theorem lexLE_refl (u : Int × Int) : lexLE u u :=
  Or.inr ⟨rfl, le_refl _⟩

theorem lexLE_trans {u v w : Int × Int} (h1 : lexLE u v) (h2 : lexLE v w) : lexLE u w := by
  unfold lexLE at h1 h2 ⊢
  omega

/-- Strict lexicographic order on (major, minor) pairs. -/
def lexLT (u v : Int × Int) : Prop :=
  u.1 < v.1 ∨ (u.1 = v.1 ∧ u.2 < v.2)

theorem lexLT_le {u v : Int × Int} (h : lexLT u v) : lexLE u v := by
  unfold lexLT at h
  unfold lexLE
  omega

theorem not_lexLT {u v : Int × Int} (h : ¬ lexLT u v) : lexLE v u := by
  unfold lexLT at h
  unfold lexLE
  omega

theorem versionOf_eq (s : String) (M m : Int)
    (h : parseVersionNums s = (some M, some m)) : versionOf s = (M, m) := by
  simp [versionOf, h]

theorem cmpIsNeg_iff (a b : String) (ha : ParsesTwo a) (hb : ParsesTwo b) :
    cmpIsNeg (verCmpDesc a b) = true ↔ lexLT (versionOf b) (versionOf a) := by
  obtain ⟨Ma, ma, hpa⟩ := ha
  obtain ⟨Mb, mb, hpb⟩ := hb
  rw [versionOf_eq a Ma ma hpa, versionOf_eq b Mb mb hpb]
  simp only [verCmpDesc, hpa, hpb, jsSub, jsOrNum, lexLT]
  by_cases h : Mb - Ma = 0
  · rw [if_pos h]
    simp only [cmpIsNeg, decide_eq_true_eq]
    omega
  · rw [if_neg h]
    simp only [cmpIsNeg, decide_eq_true_eq]
    omega

/-- Fold computing `releaseBranches.sort(cmp)[0]` for the stable descending
sort: the earliest element not strictly preceded by any other. -/
def pickLatest (h : String) (t : List String) : String :=
  t.foldl (fun best x => if cmpIsNeg (verCmpDesc x best) then x else best) h

theorem pickLatest_cons (h x : String) (t : List String) :
    pickLatest h (x :: t) = pickLatest (if cmpIsNeg (verCmpDesc x h) then x else h) t := rfl

theorem pick_max (t : List String) :
    ∀ h : String, ParsesTwo h → (∀ x ∈ t, ParsesTwo x) →
      pickLatest h t ∈ h :: t
      ∧ ∀ x ∈ h :: t, lexLE (versionOf x) (versionOf (pickLatest h t)) := by
  induction t with
  | nil =>
    intro h _ _
    refine ⟨by simp [pickLatest], ?_⟩
    intro x hx
    rw [List.mem_singleton.mp hx]
    exact lexLE_refl _
  | cons x t ih =>
    intro h hh hxall
    have hx := hxall x (by simp)
    by_cases hc : cmpIsNeg (verCmpDesc x h) = true
    · have hfold : pickLatest h (x :: t) = pickLatest x t := by
        rw [pickLatest_cons, if_pos hc]
      obtain ⟨hmem, hall⟩ := ih x hx (fun y hy => hxall y (List.mem_cons_of_mem _ hy))
      have hlt : lexLT (versionOf h) (versionOf x) := (cmpIsNeg_iff x h hx hh).mp hc
      rw [hfold]
      refine ⟨List.mem_cons_of_mem _ hmem, ?_⟩
      intro y hy
      rcases List.mem_cons.mp hy with rfl | hy2
      · exact lexLE_trans (lexLT_le hlt) (hall x (by simp))
      · exact hall y hy2
    · have hfold : pickLatest h (x :: t) = pickLatest h t := by
        rw [pickLatest_cons, if_neg hc]
      obtain ⟨hmem, hall⟩ := ih h hh (fun y hy => hxall y (List.mem_cons_of_mem _ hy))
      have hnlt : ¬ lexLT (versionOf h) (versionOf x) := by
        rw [← cmpIsNeg_iff x h hx hh]
        simp [hc]
      have hxh : lexLE (versionOf x) (versionOf h) := not_lexLT hnlt
      rw [hfold]
      constructor
      · rcases List.mem_cons.mp hmem with hm | hm
        · rw [hm]
          exact List.mem_cons_self _ _
        · exact List.mem_cons_of_mem _ (List.mem_cons_of_mem _ hm)
      · intro y hy
        rcases List.mem_cons.mp hy with rfl | hy2
        · exact hall _ (by simp)
        · rcases List.mem_cons.mp hy2 with rfl | hy3
          · exact lexLE_trans hxh (hall h (by simp))
          · exact hall _ (List.mem_cons_of_mem _ hy3)

/-- C8: resolving the latest release version returns the maximum, under the
Version order (lexicographic on major then minor, compared numerically), of
the versions parsed from refs matching the release-branch naming pattern
(`refs/heads/release/{major}.{minor}.x`); it returns `none` when no ref
matches, and refs whose names do not parse as a version are silently
excluded rather than causing an error (they simply do not contribute a
candidate). -/
theorem getLatestReleaseVersion_max (refs : List GitRef) :
    (getLatestReleaseVersion refs = none ↔
      (refs.filter isReleaseBranchRef).filterMap (fun r => releaseNameCapture r.name) = [])
    ∧ (∀ s, getLatestReleaseVersion refs = some s →
        s ∈ (refs.filter isReleaseBranchRef).filterMap (fun r => releaseNameCapture r.name)
        ∧ ∀ t ∈ (refs.filter isReleaseBranchRef).filterMap (fun r => releaseNameCapture r.name),
            lexLE (versionOf t) (versionOf s)) := by
  have hall : ∀ x ∈ (refs.filter isReleaseBranchRef).filterMap
      (fun r => releaseNameCapture r.name), ParsesTwo x := by
    intro x hx
    obtain ⟨r, _, hr⟩ := List.mem_filterMap.mp hx
    exact releaseNameScan_parses _ _ hr
  unfold getLatestReleaseVersion
  cases hc : (refs.filter isReleaseBranchRef).filterMap (fun r => releaseNameCapture r.name) with
  | nil => exact ⟨by simp, by simp⟩
  | cons h t =>
    rw [hc] at hall
    obtain ⟨hmem, hmax⟩ := pick_max t h (hall h (by simp)) (fun x hx => hall x (by simp [hx]))
    constructor
    · simp
    · intro s hs
      have hsv : pickLatest h t = s := by
        simpa [pickLatest] using hs
      rw [← hsv]
      exact ⟨hc ▸ hmem, hc ▸ hmax⟩

/-- Witness for `getLatestReleaseVersion_max`: among
`release/1.2.x`, `release/10.1.x`, `release/2.0.x` and a malformed name the
maximum is `10.1`, and it dominates the candidate `2.0`. -/
theorem getLatestReleaseVersion_max_witness :
    getLatestReleaseVersion
      [⟨"refs/heads/release/1.2.x", "o1"⟩, ⟨"refs/heads/release/10.1.x", "o2"⟩,
        ⟨"refs/heads/release/2.0.x", "o3"⟩, ⟨"refs/heads/release/junk", "o4"⟩]
      = some "10.1"
    ∧ lexLE (versionOf "2.0") (versionOf "10.1") := by
  have h := (getLatestReleaseVersion_max
    [⟨"refs/heads/release/1.2.x", "o1"⟩, ⟨"refs/heads/release/10.1.x", "o2"⟩,
      ⟨"refs/heads/release/2.0.x", "o3"⟩, ⟨"refs/heads/release/junk", "o4"⟩]).2
    "10.1" (by decide)
  exact ⟨by decide, h.2 "2.0" (by decide)⟩

/-- C4: the version-bump function is total (a total Lean function) and pure;
for every real current version, i.e. every non-sentinel string splitting at
the dot into two components that parse as numbers `M` and `m`, a major bump
yields `(M+1, 0)` and a minor bump yields `(M, m+1)` (rendered as version
strings the way the code renders them); for every sentinel current version
(`undefined`, `'No releases'`, or `'Error loading'`) a major bump yields
`(1, 0)` and a minor bump yields `(0, 1)`, with all sentinel causes treated
identically. -/
theorem calculateNewVersion_bump_and_seed
    (s : String) (M m : Int)
    (hs1 : s ≠ "") (hs2 : s ≠ "No releases") (hs3 : s ≠ "Error loading")
    (pM pm : String)
    (hsplit : jsSplit s '.' = [pM, pm])
    (hM : jsNumber pM = some M) (hm : jsNumber pm = some m) :
    (calculateNewVersion (some s) BumpType.major = toString (M + 1) ++ ".0"
      ∧ calculateNewVersion (some s) BumpType.minor
          = toString M ++ "." ++ toString (m + 1))
    ∧ (calculateNewVersion none BumpType.major = "1.0"
      ∧ calculateNewVersion (some "No releases") BumpType.major = "1.0"
      ∧ calculateNewVersion (some "Error loading") BumpType.major = "1.0"
      ∧ calculateNewVersion none BumpType.minor = "0.1"
      ∧ calculateNewVersion (some "No releases") BumpType.minor = "0.1"
      ∧ calculateNewVersion (some "Error loading") BumpType.minor = "0.1") := by
  refine ⟨⟨?_, ?_⟩, by decide, by decide, by decide, by decide, by decide, by decide⟩ <;>
    simp [calculateNewVersion, hs1, hs2, hs3, hsplit, hM, hm, jsAddOne, jsShow]

/-- Witness for `calculateNewVersion_bump_and_seed` at the concrete current
version `"2.3"`. -/
theorem calculateNewVersion_bump_and_seed_witness :
    calculateNewVersion (some "2.3") BumpType.major = "3.0"
    ∧ calculateNewVersion (some "2.3") BumpType.minor = "2.4" := by
  have h := calculateNewVersion_bump_and_seed "2.3" 2 3
    (by decide) (by decide) (by decide) "2" "3" (by decide) (by decide) (by decide)
  exact ⟨by rw [h.1.1]; rfl, by rw [h.1.2]; rfl⟩

/-- Work item record (`WorkItem` in `azureTypes.ts`); the `fields` object is
kept opaque as one snapshot value. -/
structure WorkItem where
  id : String
  fields : String
  url : String
deriving DecidableEq, Repr

/-- Per-repository outcome (`ReleaseProcessingResult` in `azureTypes.ts`);
the optional TS fields are `none` when not set by the corresponding
`addProcessingResult` call. -/
structure ProcessingResult where
  repository : String
  success : Bool
  newVersion : Option String
  error : Option String
  workItems : List WorkItem
deriving DecidableEq, Repr

/-- Repository record as consumed by `processReleases` (a selected entry
with a chosen bump type). -/
structure Repository where
  id : String
  name : String
  currentVersion : Option String
  bumpType : BumpType
deriving DecidableEq, Repr

/-- One remote invocation performed by the pipeline; the per-repository
run returns the list of invocations it performed, so that statements about
which stages executed are expressible. -/
inductive RemoteCall where
  | mainBranchCommit (repoId : String)
  | createBranch (repoId branchName : String)
  | createTag (repoId tagName commitId : String)
  | commitsBetweenTags (repoId oldTag newTag : String)
  | commitWorkItems (repoId commitId : String)
  | workItem (id : String)
deriving DecidableEq, Repr

/-- Behaviour of the remote Azure DevOps service during one repository's
processing: each operation of `AzureDevOpsService` used by `processReleases`
is an oracle; `Except.error` models a rejected promise (after retries).
`getCommitWorkItems` is total because the service method catches its own
errors and returns `[]`. -/
structure AzureEnv where
  getMainBranchCommit : String → Except String String
  createBranch : String → String → String → Except String Unit
  createTag : String → String → String → String → Except String Unit
  getCommitsBetweenTags : String → String → String → Except String (List GitCommit)
  getCommitWorkItems : String → String → List String
  getWorkItem : String → Except String WorkItem

/-- Match a case-insensitive literal (given lowercased) at the head of the
input, returning the remainder on success. -/
def matchCILit : List Char → List Char → Option (List Char)
  | [], rest => some rest
  | _ :: _, [] => none
  | p :: ps, c :: cs => if c.toLower = p then matchCILit ps cs else none

/-- Attempt of the regex `Merged PR (\d+)` (flag `i`) at one fixed position:
the case-insensitive literal then a maximal nonempty digit run, which is the
capture group. -/
def matchPRAt (l : List Char) : Option String :=
  match matchCILit "merged pr ".data l with
  | none => none
  | some r =>
    match r.takeWhile Char.isDigit with
    | [] => none
    | d :: ds => some (String.mk (d :: ds))

/-- Model of `comment.match(/Merged PR (\d+)/i)` returning the first capture
group: unanchored search, leftmost match wins. -/
def findPRMatch : List Char → Option String
  | [] => none
  | c :: rest =>
    match matchPRAt (c :: rest) with
    | some v => some v
    | none => findPRMatch rest

theorem length_dropWhile_le (p : Char → Bool) :
    ∀ l : List Char, (l.dropWhile p).length ≤ l.length := by
  intro l
  induction l with
  | nil => simp
  | cons c cs ih =>
    by_cases hc : p c = true
    · rw [List.dropWhile_cons_of_pos hc]
      exact le_trans ih (by simp)
    · rw [List.dropWhile_cons_of_neg hc]

/-- Attempt of the regex `#(\d+)|AB#(\d+)` (flag `i`) at one position with
head `c` and tail `rest`: the first alternative (`#` then a nonempty digit
run) is tried before the second (case-insensitive `AB#` then digits), as in
ordered regex alternation; on success the digit capture and the input
remaining after the whole match are returned. -/
def matchInlineAt (c : Char) (rest : List Char) : Option (String × List Char) :=
  if c = '#' then
    match rest.takeWhile Char.isDigit with
    | [] => none
    | d :: ds => some (String.mk (d :: ds), rest.dropWhile Char.isDigit)
  else if c.toLower = 'a' then
    match rest with
    | b :: '#' :: r2 =>
      if b.toLower = 'b' then
        match r2.takeWhile Char.isDigit with
        | [] => none
        | d :: ds => some (String.mk (d :: ds), r2.dropWhile Char.isDigit)
      else none
    | _ => none
  else none

/-- Scan loop behind `scanInlineRefs`, made structurally recursive on a
fuel argument; a successful match consumes at least one character and the
remainder returned by `matchInlineAt` never exceeds the tail, so fuel equal
to the input length is always sufficient and the `0`-fuel branch is only
reached on the empty input. -/
def scanInlineRefsFuel : Nat → List Char → List String
  | 0, _ => []
  | _, [] => []
  | fuel + 1, c :: rest =>
    match matchInlineAt c rest with
    | some (v, r) => v :: scanInlineRefsFuel fuel r
    | none => scanInlineRefsFuel fuel rest

/-- Model of `comment.matchAll(/#(\d+)|AB#(\d+)/gi)` followed by
`match[1] || match[2]`: global left-to-right scan, leftmost match first; a
match consumes its characters (the scan resumes at `lastIndex`) and
contributes its digit capture; where no match starts, the scan advances one
position. -/
def scanInlineRefs (l : List Char) : List String :=
  scanInlineRefsFuel l.length l

/-- JS `Set.prototype.add` on the insertion-ordered element list: append if
absent. -/
def addUnique (s : List String) (x : String) : List String :=
  if x ∈ s then s else s ++ [x]

/-- Fold `addUnique` over a batch of ids (`ids.forEach((id) => set.add(id))`). -/
def addAllUnique (s : List String) (xs : List String) : List String :=
  xs.foldl addUnique s

/-- One iteration of the id-collection loop of `processReleases` for a
single commit, threading the `workItemIds` set and recording the remote
per-commit work-item-links call:

    if (commit.workItems && commit.workItems.length > 0)
      commit.workItems.forEach((wi) => workItemIds.add(wi.id));
    const prMatch = commit.comment.match(/Merged PR (\d+)/i);
    if (prMatch) workItemIds.add(prMatch[1]);
    const wiMatches = commit.comment.matchAll(/#(\d+)|AB#(\d+)/gi);
    for (const match of wiMatches) { const id = match[1] || match[2]; if (id) workItemIds.add(id); }
    const ids = await service.getCommitWorkItems(repo.id, commit.commitId);
    ids.forEach((id) => workItemIds.add(id));
-/
def collectIdsForCommit (cwi : String → String → List String) (repoId : String)
    (s : List String) (commit : GitCommit) : List String :=
  let s1 := addAllUnique s (commit.workItems.map (fun w => w.id))
  let s2 :=
    match findPRMatch commit.comment.data with
    | some n => addUnique s1 n
    | none => s1
  let s3 := addAllUnique s2 (scanInlineRefs commit.comment.data)
  addAllUnique s3 (cwi repoId commit.commitId)

/-- The id-collection loop over all commits in range, also returning the
trace of per-commit link queries. -/
def collectIds (cwi : String → String → List String) (repoId : String) :
    List String → List GitCommit → List String × List RemoteCall
  | s, [] => (s, [])
  | s, commit :: rest =>
    let s1 := collectIdsForCommit cwi repoId s commit
    let (s2, tr) := collectIds cwi repoId s1 rest
    (s2, RemoteCall.commitWorkItems repoId commit.commitId :: tr)

/-- The work-item resolution loop of `processReleases`:

    for (const id of workItemIds) {
      try { const workItem = await service.getWorkItem(id);
            workItems.push(workItem); allWorkItems.push(workItem); }
      catch (err) { console.error(...); }
    }
-/
def resolveWorkItems (fetch : String → Except String WorkItem) : List String → List WorkItem
  | [] => []
  | id :: rest =>
    match fetch id with
    | .ok w => w :: resolveWorkItems fetch rest
    | .error _ => resolveWorkItems fetch rest

/-- The old tag name chosen by `processReleases`:

    const oldTagName = repo.currentVersion && repo.currentVersion !== 'No releases'
      ? `{repo.currentVersion}` : null;

An `undefined` current version and the empty string are falsy; note that
only `'No releases'` is excluded, not `'Error loading'`. -/
def oldTagNameOf (currentVersion : Option String) : Option String :=
  match currentVersion with
  | none => none
  | some cv => if cv ≠ "" ∧ cv ≠ "No releases" then some cv else none

/-- One iteration of the `for (const repo of selectedRepos)` loop of
`processReleases` (ExportBar): the stages up to tag creation are fatal on
failure (the surrounding `try`/`catch` records a failure result and moves
on); the commit-range stage sits in an inner `try`/`catch`, so its failure
leaves the work-item list empty and the repository is still recorded as a
success; a repository with no usable old tag skips the range and work-item
stages.  Returns the recorded `ProcessingResult`, the work items pushed to
the batch-wide `allWorkItems` accumulator, and the trace of remote calls
made:

    const newVersion = calculateNewVersion(repo.currentVersion, repo.bumpType!);
    const branchName = `refs/heads/release/{newVersion}.x`;
    const newTagName = `{newVersion}`;
    const oldTagName = repo.currentVersion && repo.currentVersion !== 'No releases'
      ? `{repo.currentVersion}` : null;
    const mainCommitId = await service.getMainBranchCommit(repo.id);
    await service.createBranch(repo.id, branchName, 'refs/heads/main');
    await service.createTag(repo.id, newTagName, mainCommitId, `Release {newVersion}`);
    ...
-/
def processRepo (env : AzureEnv) (repo : Repository) :
    ProcessingResult × List WorkItem × List RemoteCall :=
  let newVersion := calculateNewVersion repo.currentVersion repo.bumpType
  let branchName := "refs/heads/release/" ++ newVersion ++ ".x"
  let newTagName := newVersion
  match env.getMainBranchCommit repo.id with
  | .error e =>
    (⟨repo.name, false, none, some e, []⟩, [], [RemoteCall.mainBranchCommit repo.id])
  | .ok mainCommitId =>
    match env.createBranch repo.id branchName "refs/heads/main" with
    | .error e =>
      (⟨repo.name, false, none, some e, []⟩, [],
        [RemoteCall.mainBranchCommit repo.id, RemoteCall.createBranch repo.id branchName])
    | .ok _ =>
      match env.createTag repo.id newTagName mainCommitId ("Release " ++ newVersion) with
      | .error e =>
        (⟨repo.name, false, none, some e, []⟩, [],
          [RemoteCall.mainBranchCommit repo.id, RemoteCall.createBranch repo.id branchName,
            RemoteCall.createTag repo.id newTagName mainCommitId])
      | .ok _ =>
        match oldTagNameOf repo.currentVersion with
        | none =>
          (⟨repo.name, true, some newVersion, none, []⟩, [],
            [RemoteCall.mainBranchCommit repo.id, RemoteCall.createBranch repo.id branchName,
              RemoteCall.createTag repo.id newTagName mainCommitId])
        | some oldTag =>
          match env.getCommitsBetweenTags repo.id oldTag newTagName with
          | .error _ =>
            (⟨repo.name, true, some newVersion, none, []⟩, [],
              [RemoteCall.mainBranchCommit repo.id, RemoteCall.createBranch repo.id branchName,
                RemoteCall.createTag repo.id newTagName mainCommitId,
                RemoteCall.commitsBetweenTags repo.id oldTag newTagName])
          | .ok commits =>
            let collected := collectIds env.getCommitWorkItems repo.id [] commits
            let ws := resolveWorkItems env.getWorkItem collected.1
            (⟨repo.name, true, some newVersion, none, ws⟩, ws,
              [RemoteCall.mainBranchCommit repo.id, RemoteCall.createBranch repo.id branchName,
                RemoteCall.createTag repo.id newTagName mainCommitId,
                RemoteCall.commitsBetweenTags repo.id oldTag newTagName]
                ++ collected.2 ++ collected.1.map RemoteCall.workItem)

/-- The repository loop of `processReleases`, threading the batch-wide
`allWorkItems` accumulator.  The remote service is external and mutable
between round trips, so its behaviour is indexed by the position of the
repository being processed (`env k` is the behaviour seen while the `k`-th
repository runs). -/
def processReleasesGo (env : Nat → AzureEnv) :
    Nat → List Repository → List ProcessingResult × List WorkItem
  | _, [] => ([], [])
  | k, repo :: rest =>
    let step := processRepo (env k) repo
    let tail := processReleasesGo env (k + 1) rest
    (step.1 :: tail.1, step.2.1 ++ tail.2)

/-- Model of `processReleases` (ExportBar): the recorded result list in
input order, plus the batch-wide `allWorkItems` accumulator. -/
def processReleases (env : Nat → AzureEnv) (repos : List Repository) :
    List ProcessingResult × List WorkItem :=
  processReleasesGo env 0 repos

/-- JS `Map.prototype.set` on the insertion-ordered entry list: an existing
key keeps its position but its value is replaced; a new key is appended. -/
def mapUpsert : List (String × WorkItem) → String → WorkItem → List (String × WorkItem)
  | [], k, v => [(k, v)]
  | (k0, v0) :: rest, k, v =>
    if k0 = k then (k0, v) :: rest else (k0, v0) :: mapUpsert rest k v

/-- Model of the consolidation step of `processReleases`:

    const uniqueWorkItems = Array.from(
      new Map(allWorkItems.map((item) => [item.id, item])).values()
    );
-/
def jsMapDedup (items : List WorkItem) : List WorkItem :=
  (items.foldl (fun m i => mapUpsert m i.id i) []).map Prod.snd

/-- The consolidated work-item list handed to `setConsolidatedWorkItems`. -/
def consolidatedWorkItems (env : Nat → AzureEnv) (repos : List Repository) : List WorkItem :=
  jsMapDedup (processReleases env repos).2

/-- C2 (behaviour the code actually has at the claimed example): for a
commit with message `"Merged PR 42: fixes AB#100 and #200"` and an explicit
link to `300`, with the generic per-commit link query returning nothing,
the id-collection loop adds the pull-request number `42` itself to the
work-item id set and performs no query for the work items linked to PR 42,
so the collected set is `{300, 42, 100, 200}` — the id `400` linked to
PR 42 is never obtained.  (The `RemoteCall` trace contains only the generic
per-commit query; `AzureDevOpsService.getPullRequestWorkItems` is never
invoked by `processReleases`.) -/
theorem collectIds_adds_pr_number_not_linked_items :
    (collectIds (fun _ _ => []) "repo1" []
        [⟨"c1", "author", "Merged PR 42: fixes AB#100 and #200", [⟨"300", "u300"⟩]⟩]).1
      = ["300", "42", "100", "200"]
    ∧ "400" ∉ (collectIds (fun _ _ => []) "repo1" []
        [⟨"c1", "author", "Merged PR 42: fixes AB#100 and #200", [⟨"300", "u300"⟩]⟩]).1
    ∧ (collectIds (fun _ _ => []) "repo1" []
        [⟨"c1", "author", "Merged PR 42: fixes AB#100 and #200", [⟨"300", "u300"⟩]⟩]).2
      = [RemoteCall.commitWorkItems "repo1" "c1"] := by
  refine ⟨by decide, by decide, by decide⟩

theorem resolveWorkItems_append (fetch : String → Except String WorkItem) :
    ∀ (a b : List String),
      resolveWorkItems fetch (a ++ b)
        = resolveWorkItems fetch a ++ resolveWorkItems fetch b := by
  intro a b
  induction a with
  | nil => simp [resolveWorkItems]
  | cons id rest ih =>
    simp only [List.cons_append, resolveWorkItems]
    cases fetch id <;> simp [ih]

theorem resolveWorkItems_mem (fetch : String → Except String WorkItem) :
    ∀ (l : List String) (id : String) (w : WorkItem),
      id ∈ l → fetch id = .ok w → w ∈ resolveWorkItems fetch l := by
  intro l
  induction l with
  | nil => intro id w h; exact absurd h (by simp)
  | cons a rest ih =>
    intro id w hmem hid
    rcases List.mem_cons.mp hmem with rfl | hmem2
    · simp only [resolveWorkItems, hid]
      exact List.mem_cons_self _ _
    · have hw := ih id w hmem2 hid
      simp only [resolveWorkItems]
      cases fetch a <;> simp [hw]

/-- C9: during work-item resolution, a failure fetching any single
identifier is caught and that identifier is simply omitted from the
returned collection (the result is exactly the resolution of the ids before
it followed by the resolution of the ids after it), while every remaining
identifier whose fetch succeeds still contributes its record; the failure
never aborts resolution of the rest of the set. -/
theorem resolveWorkItems_isolates_failures
    (fetch : String → Except String WorkItem) (l1 l2 : List String)
    (badId errMsg : String) (hbad : fetch badId = .error errMsg) :
    resolveWorkItems fetch (l1 ++ badId :: l2)
      = resolveWorkItems fetch l1 ++ resolveWorkItems fetch l2
    ∧ ∀ id ∈ l1 ++ badId :: l2, ∀ w, fetch id = .ok w →
        w ∈ resolveWorkItems fetch (l1 ++ badId :: l2) := by
  constructor
  · rw [resolveWorkItems_append]
    simp only [resolveWorkItems, hbad]
  · intro id hmem w hw
    exact resolveWorkItems_mem fetch _ id w hmem hw

/-- Witness for `resolveWorkItems_isolates_failures`: the middle id fails,
the ids around it are still resolved. -/
theorem resolveWorkItems_isolates_failures_witness :
    resolveWorkItems
        (fun id => if id = "bad" then .error "404" else .ok ⟨id, "f", "u"⟩)
        (["1"] ++ "bad" :: ["2"])
      = resolveWorkItems
          (fun id => if id = "bad" then .error "404" else .ok ⟨id, "f", "u"⟩) ["1"]
        ++ resolveWorkItems
          (fun id => if id = "bad" then .error "404" else .ok ⟨id, "f", "u"⟩) ["2"]
    ∧ (⟨"2", "f", "u"⟩ : WorkItem) ∈ resolveWorkItems
        (fun id => if id = "bad" then .error "404" else .ok ⟨id, "f", "u"⟩)
        (["1"] ++ "bad" :: ["2"]) := by
  have h := resolveWorkItems_isolates_failures
    (fun id => if id = "bad" then .error "404" else .ok ⟨id, "f", "u"⟩)
    ["1"] ["2"] "bad" "404" (by rfl)
  exact ⟨h.1, h.2 "2" (by decide) ⟨"2", "f", "u"⟩ (by rfl)⟩

theorem processReleasesGo_results (env : Nat → AzureEnv) :
    ∀ (repos : List Repository) (k : Nat),
      (processReleasesGo env k repos).1
        = (repos.enumFrom k).map (fun p => (processRepo (env p.1) p.2).1) := by
  intro repos
  induction repos with
  | nil => intro k; rfl
  | cons repo rest ih =>
    intro k
    simp [processReleasesGo, List.enumFrom, ih (k + 1)]

theorem processRepo_fatal_main (env : AzureEnv) (repo : Repository) (e : String)
    (h1 : env.getMainBranchCommit repo.id = .error e) :
    (processRepo env repo).1 = ⟨repo.name, false, none, some e, []⟩ := by
  simp [processRepo, h1]

theorem processRepo_fatal_branch (env : AzureEnv) (repo : Repository) (mc e : String)
    (h1 : env.getMainBranchCommit repo.id = .ok mc)
    (h2 : env.createBranch repo.id
        ("refs/heads/release/" ++ calculateNewVersion repo.currentVersion repo.bumpType ++ ".x")
        "refs/heads/main" = .error e) :
    (processRepo env repo).1 = ⟨repo.name, false, none, some e, []⟩ := by
  simp [processRepo, h1, h2]

theorem processRepo_fatal_tag (env : AzureEnv) (repo : Repository) (mc e : String)
    (h1 : env.getMainBranchCommit repo.id = .ok mc)
    (h2 : env.createBranch repo.id
        ("refs/heads/release/" ++ calculateNewVersion repo.currentVersion repo.bumpType ++ ".x")
        "refs/heads/main" = .ok ())
    (h3 : env.createTag repo.id (calculateNewVersion repo.currentVersion repo.bumpType) mc
        ("Release " ++ calculateNewVersion repo.currentVersion repo.bumpType) = .error e) :
    (processRepo env repo).1 = ⟨repo.name, false, none, some e, []⟩ := by
  simp [processRepo, h1, h2, h3]

theorem processRepo_success_fields (env : AzureEnv) (repo : Repository) (mc : String)
    (h1 : env.getMainBranchCommit repo.id = .ok mc)
    (h2 : env.createBranch repo.id
        ("refs/heads/release/" ++ calculateNewVersion repo.currentVersion repo.bumpType ++ ".x")
        "refs/heads/main" = .ok ())
    (h3 : env.createTag repo.id (calculateNewVersion repo.currentVersion repo.bumpType) mc
        ("Release " ++ calculateNewVersion repo.currentVersion repo.bumpType) = .ok ()) :
    (processRepo env repo).1.success = true
    ∧ (processRepo env repo).1.newVersion
        = some (calculateNewVersion repo.currentVersion repo.bumpType)
    ∧ (processRepo env repo).1.error = none := by
  simp only [processRepo, h1, h2, h3]
  split
  · exact ⟨rfl, rfl, rfl⟩
  · split <;> exact ⟨rfl, rfl, rfl⟩

theorem processRepo_repository_name (env : AzureEnv) (repo : Repository) :
    (processRepo env repo).1.repository = repo.name := by
  simp only [processRepo]
  split
  · rfl
  · split
    · rfl
    · split
      · rfl
      · split
        · rfl
        · split <;> rfl

/-- C5: for every batch, a failure during source-commit resolution, branch
creation or tag creation for one repository produces exactly one failure
`ProcessingResult` for that repository, carrying the triggering error
message; the final result list has exactly one entry per input repository,
in input order, each entry produced solely from that repository and the
remote behaviour during its slot (so processing continues with the next
repository), and a repository whose three fatal stages succeed is recorded
as a success with its new version. -/
theorem processReleases_fault_isolation (env : Nat → AzureEnv) (repos : List Repository)
    (envk : AzureEnv) (repo : Repository) :
    (processReleases env repos).1
        = repos.enum.map (fun p => (processRepo (env p.1) p.2).1)
    ∧ (processRepo envk repo).1.repository = repo.name
    ∧ (∀ e, envk.getMainBranchCommit repo.id = .error e →
        (processRepo envk repo).1 = ⟨repo.name, false, none, some e, []⟩)
    ∧ (∀ mc e, envk.getMainBranchCommit repo.id = .ok mc →
        envk.createBranch repo.id
          ("refs/heads/release/" ++ calculateNewVersion repo.currentVersion repo.bumpType ++ ".x")
          "refs/heads/main" = .error e →
        (processRepo envk repo).1 = ⟨repo.name, false, none, some e, []⟩)
    ∧ (∀ mc e, envk.getMainBranchCommit repo.id = .ok mc →
        envk.createBranch repo.id
          ("refs/heads/release/" ++ calculateNewVersion repo.currentVersion repo.bumpType ++ ".x")
          "refs/heads/main" = .ok () →
        envk.createTag repo.id (calculateNewVersion repo.currentVersion repo.bumpType) mc
          ("Release " ++ calculateNewVersion repo.currentVersion repo.bumpType) = .error e →
        (processRepo envk repo).1 = ⟨repo.name, false, none, some e, []⟩)
    ∧ (∀ mc, envk.getMainBranchCommit repo.id = .ok mc →
        envk.createBranch repo.id
          ("refs/heads/release/" ++ calculateNewVersion repo.currentVersion repo.bumpType ++ ".x")
          "refs/heads/main" = .ok () →
        envk.createTag repo.id (calculateNewVersion repo.currentVersion repo.bumpType) mc
          ("Release " ++ calculateNewVersion repo.currentVersion repo.bumpType) = .ok () →
        (processRepo envk repo).1.success = true
        ∧ (processRepo envk repo).1.newVersion
            = some (calculateNewVersion repo.currentVersion repo.bumpType)
        ∧ (processRepo envk repo).1.error = none) := by
  refine ⟨processReleasesGo_results env repos 0, processRepo_repository_name envk repo,
    ?_, ?_, ?_, ?_⟩
  · intro e h1
    exact processRepo_fatal_main envk repo e h1
  · intro mc e h1 h2
    exact processRepo_fatal_branch envk repo mc e h1 h2
  · intro mc e h1 h2 h3
    exact processRepo_fatal_tag envk repo mc e h1 h2 h3
  · intro mc h1 h2 h3
    exact processRepo_success_fields envk repo mc h1 h2 h3

/-- Remote behaviour in which ref creation succeeds, the commit-range query
fails, and nothing resolves; used to instantiate the batch theorems. -/
def demoEnvOk : AzureEnv where
  getMainBranchCommit := fun _ => .ok "c0"
  createBranch := fun _ _ _ => .ok ()
  createTag := fun _ _ _ _ => .ok ()
  getCommitsBetweenTags := fun _ _ _ => .error "API Error: 404"
  getCommitWorkItems := fun _ _ => []
  getWorkItem := fun _ => .error "unused"

/-- Remote behaviour whose tag creation fails during the second
repository's slot only. -/
def demoEnvTagFail : Nat → AzureEnv := fun k =>
  { getMainBranchCommit := fun _ => .ok "c0"
    createBranch := fun _ _ _ => .ok ()
    createTag := fun _ _ _ _ => if k = 1 then .error "tag exists" else .ok ()
    getCommitsBetweenTags := fun _ _ _ => .error "API Error: 404"
    getCommitWorkItems := fun _ _ => []
    getWorkItem := fun _ => .error "unused" }

/-- Witness for `processReleases_fault_isolation`: in a batch of three
repositories whose second fails at tag creation, the second entry is the
failure result carrying the message, the list has three entries, and the
first repository is recorded as a success. -/
theorem processReleases_fault_isolation_witness :
    (processRepo (demoEnvTagFail 1) ⟨"r2", "R2", some "1.0", BumpType.minor⟩).1
      = ⟨"R2", false, none, some "tag exists", []⟩
    ∧ (processReleases demoEnvTagFail
        [⟨"r1", "R1", none, BumpType.major⟩, ⟨"r2", "R2", some "1.0", BumpType.minor⟩,
          ⟨"r3", "R3", none, BumpType.minor⟩]).1.length = 3
    ∧ (processRepo (demoEnvTagFail 0) ⟨"r1", "R1", none, BumpType.major⟩).1.success = true := by
  have h := processReleases_fault_isolation demoEnvTagFail
    [⟨"r1", "R1", none, BumpType.major⟩, ⟨"r2", "R2", some "1.0", BumpType.minor⟩,
      ⟨"r3", "R3", none, BumpType.minor⟩]
    (demoEnvTagFail 1) ⟨"r2", "R2", some "1.0", BumpType.minor⟩
  have h0 := processReleases_fault_isolation demoEnvTagFail
    [⟨"r1", "R1", none, BumpType.major⟩, ⟨"r2", "R2", some "1.0", BumpType.minor⟩,
      ⟨"r3", "R3", none, BumpType.minor⟩]
    (demoEnvTagFail 0) ⟨"r1", "R1", none, BumpType.major⟩
  refine ⟨h.2.2.2.2.1 "c0" "tag exists" rfl rfl rfl, ?_, (h0.2.2.2.2.2 "c0" rfl rfl rfl).1⟩
  rw [h.1]
  decide

theorem processRepo_skip_sentinel (env : AzureEnv) (repo : Repository) (mc : String)
    (h1 : env.getMainBranchCommit repo.id = .ok mc)
    (h2 : env.createBranch repo.id
        ("refs/heads/release/" ++ calculateNewVersion repo.currentVersion repo.bumpType ++ ".x")
        "refs/heads/main" = .ok ())
    (h3 : env.createTag repo.id (calculateNewVersion repo.currentVersion repo.bumpType) mc
        ("Release " ++ calculateNewVersion repo.currentVersion repo.bumpType) = .ok ())
    (hcv : repo.currentVersion = none ∨ repo.currentVersion = some ""
        ∨ repo.currentVersion = some "No releases") :
    processRepo env repo
      = (⟨repo.name, true, some (calculateNewVersion repo.currentVersion repo.bumpType), none, []⟩,
          [],
          [RemoteCall.mainBranchCommit repo.id,
            RemoteCall.createBranch repo.id
              ("refs/heads/release/"
                ++ calculateNewVersion repo.currentVersion repo.bumpType ++ ".x"),
            RemoteCall.createTag repo.id
              (calculateNewVersion repo.currentVersion repo.bumpType) mc]) := by
  rcases hcv with hcv | hcv | hcv <;>
    rw [hcv] at h2 h3 <;> simp [processRepo, oldTagNameOf, h1, h2, h3, hcv]

theorem processRepo_errorLoading_attempts (env : AzureEnv) (repo : Repository) (mc : String)
    (h1 : env.getMainBranchCommit repo.id = .ok mc)
    (h2 : env.createBranch repo.id
        ("refs/heads/release/" ++ calculateNewVersion repo.currentVersion repo.bumpType ++ ".x")
        "refs/heads/main" = .ok ())
    (h3 : env.createTag repo.id (calculateNewVersion repo.currentVersion repo.bumpType) mc
        ("Release " ++ calculateNewVersion repo.currentVersion repo.bumpType) = .ok ())
    (hcv : repo.currentVersion = some "Error loading") :
    RemoteCall.commitsBetweenTags repo.id "Error loading"
        (calculateNewVersion repo.currentVersion repo.bumpType)
      ∈ (processRepo env repo).2.2
    ∧ ∀ e, env.getCommitsBetweenTags repo.id "Error loading"
          (calculateNewVersion repo.currentVersion repo.bumpType) = .error e →
        (processRepo env repo).1
          = ⟨repo.name, true,
              some (calculateNewVersion repo.currentVersion repo.bumpType), none, []⟩ := by
  rw [hcv] at h2 h3
  have hot : oldTagNameOf (some "Error loading") = some "Error loading" := by decide
  constructor
  · simp only [processRepo, h1, h2, h3, hcv, hot]
    split <;> simp
  · intro e he
    rw [hcv] at he
    simp [processRepo, h1, h2, h3, hcv, hot, he]

/-- C6 (counterexample to the claim as stated): for a repository whose
version lookup failed (current version `'Error loading'`), the pipeline
does not skip the range-computation stage: the remote commit-range query is
invoked, with the sentinel string itself as the old tag name. -/
theorem errorLoading_not_skipped :
    RemoteCall.commitsBetweenTags "r1" "Error loading" "0.1"
      ∈ (processRepo demoEnvOk ⟨"r1", "R1", some "Error loading", BumpType.minor⟩).2.2 := by
  decide

/-- C6 (amended): a repository whose current version marks "no prior
release" (`undefined`, empty, or `'No releases'`) skips the
range-computation and work-item stages entirely — its remote-call trace is
exactly the three creation-stage calls — and is recorded as a success with
an empty work-item list (assuming branch and tag creation succeed).  A
repository whose version lookup failed (`'Error loading'`) does not skip:
the commit-range query is invoked with the sentinel string as the old tag
name, and when that query fails the repository is likewise recorded as a
success with an empty work-item list. -/
theorem processRepo_sentinel_stage_skipping (env : AzureEnv) (repo : Repository) (mc : String)
    (h1 : env.getMainBranchCommit repo.id = .ok mc)
    (h2 : env.createBranch repo.id
        ("refs/heads/release/" ++ calculateNewVersion repo.currentVersion repo.bumpType ++ ".x")
        "refs/heads/main" = .ok ())
    (h3 : env.createTag repo.id (calculateNewVersion repo.currentVersion repo.bumpType) mc
        ("Release " ++ calculateNewVersion repo.currentVersion repo.bumpType) = .ok ()) :
    ((repo.currentVersion = none ∨ repo.currentVersion = some ""
        ∨ repo.currentVersion = some "No releases") →
      processRepo env repo
        = (⟨repo.name, true, some (calculateNewVersion repo.currentVersion repo.bumpType),
              none, []⟩,
            [],
            [RemoteCall.mainBranchCommit repo.id,
              RemoteCall.createBranch repo.id
                ("refs/heads/release/"
                  ++ calculateNewVersion repo.currentVersion repo.bumpType ++ ".x"),
              RemoteCall.createTag repo.id
                (calculateNewVersion repo.currentVersion repo.bumpType) mc]))
    ∧ (repo.currentVersion = some "Error loading" →
        RemoteCall.commitsBetweenTags repo.id "Error loading"
            (calculateNewVersion repo.currentVersion repo.bumpType)
          ∈ (processRepo env repo).2.2
        ∧ ∀ e, env.getCommitsBetweenTags repo.id "Error loading"
              (calculateNewVersion repo.currentVersion repo.bumpType) = .error e →
            (processRepo env repo).1
              = ⟨repo.name, true,
                  some (calculateNewVersion repo.currentVersion repo.bumpType), none, []⟩) :=
  ⟨fun hcv => processRepo_skip_sentinel env repo mc h1 h2 h3 hcv,
    fun hcv => processRepo_errorLoading_attempts env repo mc h1 h2 h3 hcv⟩

/-- Witness for `processRepo_sentinel_stage_skipping` at a `'No releases'`
repository (skipped, trace is the three creation calls) and an
`'Error loading'` repository (still recorded as success with empty
work-item list when the attempted range query fails). -/
theorem processRepo_sentinel_stage_skipping_witness :
    processRepo demoEnvOk ⟨"r2", "R2", some "No releases", BumpType.major⟩
      = (⟨"R2", true, some "1.0", none, []⟩, [],
          [RemoteCall.mainBranchCommit "r2",
            RemoteCall.createBranch "r2" "refs/heads/release/1.0.x",
            RemoteCall.createTag "r2" "1.0" "c0"])
    ∧ (processRepo demoEnvOk ⟨"r1", "R1", some "Error loading", BumpType.minor⟩).1
      = ⟨"R1", true, some "0.1", none, []⟩ := by
  have ha := processRepo_sentinel_stage_skipping demoEnvOk
    ⟨"r2", "R2", some "No releases", BumpType.major⟩ "c0" rfl rfl rfl
  have hb := processRepo_sentinel_stage_skipping demoEnvOk
    ⟨"r1", "R1", some "Error loading", BumpType.minor⟩ "c0" rfl rfl rfl
  exact ⟨ha.1 (Or.inr (Or.inr rfl)), (hb.2 rfl).2 "API Error: 404" rfl⟩

theorem addUnique_nodup (s : List String) (x : String) (h : s.Nodup) :
    (addUnique s x).Nodup := by
  unfold addUnique
  split
  · exact h
  case _ hx => simp [List.nodup_append, h, hx]

theorem addAllUnique_nodup (xs : List String) :
    ∀ s : List String, s.Nodup → (addAllUnique s xs).Nodup := by
  induction xs with
  | nil => intro s h; exact h
  | cons x xs ih =>
    intro s h
    exact ih (addUnique s x) (addUnique_nodup s x h)

theorem collectIdsForCommit_nodup (cwi : String → String → List String) (repoId : String)
    (s : List String) (commit : GitCommit) (h : s.Nodup) :
    (collectIdsForCommit cwi repoId s commit).Nodup := by
  unfold collectIdsForCommit
  apply addAllUnique_nodup
  apply addAllUnique_nodup
  split
  · apply addUnique_nodup
    exact addAllUnique_nodup _ _ h
  · exact addAllUnique_nodup _ _ h

theorem collectIds_nodup (cwi : String → String → List String) (repoId : String) :
    ∀ (commits : List GitCommit) (s : List String), s.Nodup →
      (collectIds cwi repoId s commits).1.Nodup := by
  intro commits
  induction commits with
  | nil => intro s h; exact h
  | cons c rest ih =>
    intro s h
    simp only [collectIds]
    exact ih _ (collectIdsForCommit_nodup cwi repoId s c h)

theorem collectIds_trace (cwi : String → String → List String) (repoId : String) :
    ∀ (commits : List GitCommit) (s : List String),
      (collectIds cwi repoId s commits).2
        = commits.map (fun c => RemoteCall.commitWorkItems repoId c.commitId) := by
  intro commits
  induction commits with
  | nil => intro s; rfl
  | cons c rest ih =>
    intro s
    simp only [collectIds, List.map_cons]
    rw [ih]

theorem resolveWorkItems_id_mem (fetch : String → Except String WorkItem)
    (hfetch : ∀ id w, fetch id = .ok w → w.id = id) :
    ∀ (l : List String) (w : WorkItem), w ∈ resolveWorkItems fetch l → w.id ∈ l := by
  intro l
  induction l with
  | nil => intro w h; exact absurd h (by simp [resolveWorkItems])
  | cons a rest ih =>
    intro w h
    simp only [resolveWorkItems] at h
    cases ha : fetch a with
    | ok wa =>
      rw [ha] at h
      rcases List.mem_cons.mp h with rfl | h2
      · simp [hfetch a w ha]
      · exact List.mem_cons_of_mem _ (ih w h2)
    | error e =>
      rw [ha] at h
      exact List.mem_cons_of_mem _ (ih w h)

theorem resolveWorkItems_ids_nodup (fetch : String → Except String WorkItem)
    (hfetch : ∀ id w, fetch id = .ok w → w.id = id) :
    ∀ l : List String, l.Nodup →
      ((resolveWorkItems fetch l).map (fun w => w.id)).Nodup := by
  intro l
  induction l with
  | nil => intro _; simp [resolveWorkItems]
  | cons a rest ih =>
    intro h
    have hrest := ih (List.Nodup.of_cons h)
    have hamem : a ∉ rest := by
      intro hmem
      exact (List.nodup_cons.mp h).1 hmem
    simp only [resolveWorkItems]
    cases ha : fetch a with
    | ok wa =>
      simp only [List.map_cons, List.nodup_cons]
      refine ⟨?_, hrest⟩
      intro hmem
      rcases List.mem_map.mp hmem with ⟨w, hw, hid⟩
      have := resolveWorkItems_id_mem fetch hfetch rest w hw
      rw [hid, hfetch a wa ha] at this
      exact hamem this
    | error e => exact hrest

theorem count_workItem_in_cwi_trace (repoId id : String) (commits : List GitCommit) :
    ((commits.map (fun c => RemoteCall.commitWorkItems repoId c.commitId)).count
        (RemoteCall.workItem id)) = 0 := by
  rw [List.count_eq_zero]
  intro hmem
  rcases List.mem_map.mp hmem with ⟨c, _, hc⟩
  exact absurd hc (by simp)

theorem count_workItem_final (repoId : String) (base : List RemoteCall)
    (hbase : ∀ i, base.count (RemoteCall.workItem i) = 0)
    (commits : List GitCommit) (ids : List String) (hids : ids.Nodup) (id : String) :
    ((base ++ commits.map (fun c => RemoteCall.commitWorkItems repoId c.commitId)
        ++ ids.map RemoteCall.workItem).count (RemoteCall.workItem id)) ≤ 1 := by
  rw [List.count_append, List.count_append, hbase, count_workItem_in_cwi_trace,
    List.count_map_of_injective _ _ (fun a b hab => by cases hab; rfl)]
  simpa using List.nodup_iff_count_le_one.mp hids id

/-- Case analysis of `processRepo`: either the run records no work items
(fatal-stage failure, skipped range stage, or failed range query) with no
`getWorkItem` call in the trace, or it reaches the extraction/resolution
stages, whose outputs are exactly the collection fold and the resolution
loop over the collected id set. -/
theorem processRepo_shape (env : AzureEnv) (repo : Repository) :
    ((processRepo env repo).1.workItems = []
      ∧ (processRepo env repo).2.1 = []
      ∧ ∀ i, ((processRepo env repo).2.2.count (RemoteCall.workItem i)) = 0)
    ∨ (∃ commits pre,
        (processRepo env repo).1.success = true
        ∧ (processRepo env repo).1.workItems
            = resolveWorkItems env.getWorkItem
                (collectIds env.getCommitWorkItems repo.id [] commits).1
        ∧ (processRepo env repo).2.1 = (processRepo env repo).1.workItems
        ∧ (processRepo env repo).2.2
            = pre ++ commits.map (fun c => RemoteCall.commitWorkItems repo.id c.commitId)
                ++ (collectIds env.getCommitWorkItems repo.id [] commits).1.map
                    RemoteCall.workItem
        ∧ ∀ i, pre.count (RemoteCall.workItem i) = 0) := by
  cases hmain : env.getMainBranchCommit repo.id with
  | error e =>
    left
    refine ⟨by simp [processRepo, hmain], by simp [processRepo, hmain], ?_⟩
    intro i
    simp [processRepo, hmain, List.count_cons]
  | ok mc =>
    cases hbr : env.createBranch repo.id
        ("refs/heads/release/" ++ calculateNewVersion repo.currentVersion repo.bumpType ++ ".x")
        "refs/heads/main" with
    | error e =>
      left
      refine ⟨by simp [processRepo, hmain, hbr], by simp [processRepo, hmain, hbr], ?_⟩
      intro i
      simp [processRepo, hmain, hbr, List.count_cons]
    | ok u =>
      cases u
      cases htag : env.createTag repo.id (calculateNewVersion repo.currentVersion repo.bumpType)
          mc ("Release " ++ calculateNewVersion repo.currentVersion repo.bumpType) with
      | error e =>
        left
        refine ⟨by simp [processRepo, hmain, hbr, htag],
          by simp [processRepo, hmain, hbr, htag], ?_⟩
        intro i
        simp [processRepo, hmain, hbr, htag, List.count_cons]
      | ok u2 =>
        cases u2
        cases hold : oldTagNameOf repo.currentVersion with
        | none =>
          left
          refine ⟨by simp [processRepo, hmain, hbr, htag, hold],
            by simp [processRepo, hmain, hbr, htag, hold], ?_⟩
          intro i
          simp [processRepo, hmain, hbr, htag, hold, List.count_cons]
        | some oldTag =>
          cases hcbt : env.getCommitsBetweenTags repo.id oldTag
              (calculateNewVersion repo.currentVersion repo.bumpType) with
          | error e =>
            left
            refine ⟨by simp [processRepo, hmain, hbr, htag, hold, hcbt],
              by simp [processRepo, hmain, hbr, htag, hold, hcbt], ?_⟩
            intro i
            simp [processRepo, hmain, hbr, htag, hold, hcbt, List.count_cons]
          | ok commits =>
            right
            refine ⟨commits,
              [RemoteCall.mainBranchCommit repo.id,
                RemoteCall.createBranch repo.id
                  ("refs/heads/release/"
                    ++ calculateNewVersion repo.currentVersion repo.bumpType ++ ".x"),
                RemoteCall.createTag repo.id
                  (calculateNewVersion repo.currentVersion repo.bumpType) mc,
                RemoteCall.commitsBetweenTags repo.id oldTag
                  (calculateNewVersion repo.currentVersion repo.bumpType)],
              ?_, ?_, ?_, ?_, ?_⟩
            · simp [processRepo, hmain, hbr, htag, hold, hcbt]
            · simp [processRepo, hmain, hbr, htag, hold, hcbt]
            · simp [processRepo, hmain, hbr, htag, hold, hcbt]
            · simp [processRepo, hmain, hbr, htag, hold, hcbt, collectIds_trace]
            · intro i
              simp [List.count_cons]

/-- C10: within each single repository's recorded `ProcessingResult`, the
work-item list contains at most one entry per work-item identifier
(assuming the remote returns the work item that was asked for, i.e. the
fetched record's id equals the requested id), and each identifier is
fetched from the remote system at most once per repository — the trace
contains at most one `getWorkItem` call per id — because extracted
identifiers are collected into a set before any fetching occurs. -/
theorem processRepo_dedup_before_fetch (env : AzureEnv) (repo : Repository)
    (hfetch : ∀ id w, env.getWorkItem id = .ok w → w.id = id) :
    ((processRepo env repo).1.workItems.map (fun w => w.id)).Nodup
    ∧ ∀ id, ((processRepo env repo).2.2.count (RemoteCall.workItem id)) ≤ 1 := by
  rcases processRepo_shape env repo with ⟨hw, _, htr⟩ | ⟨commits, pre, _, hw, _, htr, hpre⟩
  · constructor
    · simp [hw]
    · intro id
      simp [htr id]
  · have hids : (collectIds env.getCommitWorkItems repo.id [] commits).1.Nodup :=
      collectIds_nodup env.getCommitWorkItems repo.id commits [] (by simp)
    constructor
    · rw [hw]
      exact resolveWorkItems_ids_nodup env.getWorkItem hfetch _ hids
    · intro id
      rw [htr]
      exact count_workItem_final repo.id pre hpre commits _ hids id

/-- Remote behaviour with one in-range commit mentioning `#100` both inline
and via the per-commit link query; every work item resolves to the
requested id. -/
def demoEnvResolve : AzureEnv where
  getMainBranchCommit := fun _ => .ok "c0"
  createBranch := fun _ _ _ => .ok ()
  createTag := fun _ _ _ _ => .ok ()
  getCommitsBetweenTags := fun _ _ _ => .ok [⟨"c1", "a", "fixes #100 and AB#100", []⟩]
  getCommitWorkItems := fun _ _ => ["100"]
  getWorkItem := fun id => .ok ⟨id, "T", "u"⟩

/-- Witness for `processRepo_dedup_before_fetch`: the id `100` is extracted
three times but fetched once, and the recorded work-item list has distinct
ids. -/
theorem processRepo_dedup_before_fetch_witness :
    ((processRepo demoEnvResolve ⟨"r1", "R1", some "1.0", BumpType.minor⟩).1.workItems.map
        (fun w => w.id)).Nodup
    ∧ ((processRepo demoEnvResolve ⟨"r1", "R1", some "1.0", BumpType.minor⟩).2.2.count
        (RemoteCall.workItem "100")) ≤ 1 := by
  have h := processRepo_dedup_before_fetch demoEnvResolve
    ⟨"r1", "R1", some "1.0", BumpType.minor⟩
    (fun id w hw => by
      have h2 : Except.ok (⟨id, "T", "u"⟩ : WorkItem) = Except.ok w := hw
      cases Except.ok.inj h2
      rfl)
  exact ⟨h.1, h.2 "100"⟩

/-- The entry list of `new Map(allWorkItems.map((item) => [item.id, item]))`:
a left fold of `Map.set` steps. -/
def buildMap (items : List WorkItem) : List (String × WorkItem) :=
  items.foldl (fun m i => mapUpsert m i.id i) []

theorem jsMapDedup_eq_buildMap (items : List WorkItem) :
    jsMapDedup items = (buildMap items).map Prod.snd := rfl

theorem buildMap_snoc (items : List WorkItem) (i : WorkItem) :
    buildMap (items ++ [i]) = mapUpsert (buildMap items) i.id i := by
  simp [buildMap, List.foldl_append]

theorem mapUpsert_fst (k : String) (v : WorkItem) :
    ∀ m : List (String × WorkItem),
      (mapUpsert m k v).map Prod.fst
        = if k ∈ m.map Prod.fst then m.map Prod.fst else m.map Prod.fst ++ [k] := by
  intro m
  induction m with
  | nil => simp [mapUpsert]
  | cons p m ih =>
    by_cases hk : p.1 = k
    · simp [mapUpsert, hk]
    · have hne : ¬(k = p.1) := fun h => hk h.symm
      simp only [mapUpsert]
      rw [if_neg hk]
      simp only [List.map_cons, List.mem_cons, hne, false_or, ih]
      by_cases hmem : k ∈ m.map Prod.fst
      · simp [hmem]
      · simp [hmem]

theorem mapUpsert_mem_cases (k : String) (v : WorkItem) :
    ∀ (m : List (String × WorkItem)) (p : String × WorkItem),
      p ∈ mapUpsert m k v → p ∈ m ∨ p = (k, v) := by
  intro m
  induction m with
  | nil =>
    intro p hp
    simp only [mapUpsert] at hp
    exact Or.inr (List.mem_singleton.mp hp)
  | cons q m ih =>
    intro p hp
    simp only [mapUpsert] at hp
    split at hp
    case _ hk =>
      rcases List.mem_cons.mp hp with rfl | hp2
      · right
        rw [hk]
      · exact Or.inl (List.mem_cons_of_mem _ hp2)
    · rcases List.mem_cons.mp hp with rfl | hp2
      · exact Or.inl (List.mem_cons_self _ _)
      · rcases ih p hp2 with h | h
        · exact Or.inl (List.mem_cons_of_mem _ h)
        · exact Or.inr h

theorem buildMap_keys_nodup (items : List WorkItem) :
    ((buildMap items).map Prod.fst).Nodup := by
  induction items using List.reverseRecOn with
  | nil => simp [buildMap]
  | append_singleton l i ih =>
    rw [buildMap_snoc, mapUpsert_fst]
    split
    · exact ih
    case _ hmem => simp [List.nodup_append, ih, hmem]

theorem buildMap_keys_mem (items : List WorkItem) :
    ∀ k, k ∈ (buildMap items).map Prod.fst ↔ k ∈ items.map (fun w => w.id) := by
  induction items using List.reverseRecOn with
  | nil => intro k; simp [buildMap]
  | append_singleton l i ih =>
    intro k
    rw [buildMap_snoc, mapUpsert_fst]
    by_cases hmem : i.id ∈ (buildMap l).map Prod.fst
    · rw [if_pos hmem]
      simp only [List.map_append, List.map_cons, List.map_nil, List.mem_append,
        List.mem_singleton, ih k]
      constructor
      · exact fun h => Or.inl h
      · intro h
        rcases h with h | h
        · exact h
        · rw [h]
          exact (ih i.id).mp hmem
    · rw [if_neg hmem]
      simp [ih k]

theorem buildMap_entry_id (items : List WorkItem) :
    ∀ p ∈ buildMap items, p.2.id = p.1 := by
  induction items using List.reverseRecOn with
  | nil => simp [buildMap]
  | append_singleton l i ih =>
    intro p hp
    rw [buildMap_snoc] at hp
    rcases mapUpsert_mem_cases i.id i _ p hp with h | h
    · exact ih p h
    · rw [h]

theorem mapUpsert_getLast (items : List WorkItem) (i : WorkItem) :
    ∀ (bm : List (String × WorkItem)),
      ((bm.map Prod.fst).Nodup) →
      (∀ p ∈ bm, (items.filter (fun x => x.id = p.1)).getLast? = some p.2) →
      ∀ p ∈ mapUpsert bm i.id i,
        ((items ++ [i]).filter (fun x => x.id = p.1)).getLast? = some p.2 := by
  intro bm
  induction bm with
  | nil =>
    intro _ _ p hp
    simp only [mapUpsert] at hp
    rw [List.mem_singleton.mp hp]
    simp [List.filter_append, List.getLast?_concat]
  | cons q bm ih =>
    intro hnd hlast p hp
    simp only [mapUpsert] at hp
    split at hp
    case _ hk =>
      rcases List.mem_cons.mp hp with rfl | hp2
      · simp only [List.filter_append]
        have : (List.filter (fun x => decide (x.id = q.1)) [i]) = [i] := by
          simp [← hk]
        rw [this, List.getLast?_concat]
      · have hq : q.1 ∉ (bm.map Prod.fst) := (List.nodup_cons.mp (by simpa using hnd)).1
        have hp1 : p.1 ∈ bm.map Prod.fst := List.mem_map_of_mem Prod.fst hp2
        have hne : p.1 ≠ i.id := by
          rw [← hk]
          intro h
          rw [← h] at hq
          exact hq hp1
        simp only [List.filter_append]
        have : (List.filter (fun x => decide (x.id = p.1)) [i]) = [] := by
          simp
          intro h
          exact hne h.symm
        rw [this, List.append_nil]
        exact hlast p (List.mem_cons_of_mem _ hp2)
    case _ hk =>
      rcases List.mem_cons.mp hp with rfl | hp2
      · have hne : q.1 ≠ i.id := hk
        simp only [List.filter_append]
        have : (List.filter (fun x => decide (x.id = q.1)) [i]) = [] := by
          simp
          intro h
          exact hne h.symm
        rw [this, List.append_nil]
        exact hlast q (List.mem_cons_self _ _)
      · exact ih (List.Nodup.of_cons (by simpa using hnd))
          (fun r hr => hlast r (List.mem_cons_of_mem _ hr)) p hp2

theorem buildMap_getLast (items : List WorkItem) :
    ∀ p ∈ buildMap items,
      (items.filter (fun x => x.id = p.1)).getLast? = some p.2 := by
  induction items using List.reverseRecOn with
  | nil => simp [buildMap]
  | append_singleton l i ih =>
    intro p hp
    rw [buildMap_snoc] at hp
    exact mapUpsert_getLast l i (buildMap l) (buildMap_keys_nodup l) ih p hp

theorem processRepo_pushed (env : AzureEnv) (repo : Repository) :
    (processRepo env repo).2.1 = (processRepo env repo).1.workItems := by
  rcases processRepo_shape env repo with ⟨hw, hp, _⟩ | ⟨_, _, _, _, hp, _, _⟩
  · rw [hw, hp]
  · exact hp

theorem processRepo_fail_empty (env : AzureEnv) (repo : Repository)
    (h : (processRepo env repo).1.success = false) :
    (processRepo env repo).1.workItems = [] := by
  rcases processRepo_shape env repo with ⟨hw, _, _⟩ | ⟨_, _, hs, _, _, _, _⟩
  · exact hw
  · rw [hs] at h
    exact absurd h (by simp)

theorem processReleasesGo_all (env : Nat → AzureEnv) :
    ∀ (repos : List Repository) (k : Nat),
      (processReleasesGo env k repos).2
        = ((processReleasesGo env k repos).1.map (fun r => r.workItems)).flatten := by
  intro repos
  induction repos with
  | nil => intro k; rfl
  | cons repo rest ih =>
    intro k
    simp only [processReleasesGo, List.map_cons, List.flatten_cons]
    rw [ih (k + 1), processRepo_pushed]

/-- Remote behaviour returning, for the same work-item id, a different
field snapshot during each repository slot (the remote is mutable between
round trips). -/
def demoEnvSnapshots : Nat → AzureEnv := fun k =>
  { getMainBranchCommit := fun _ => .ok "c0"
    createBranch := fun _ _ _ => .ok ()
    createTag := fun _ _ _ _ => .ok ()
    getCommitsBetweenTags := fun _ _ _ => .ok [⟨"c1", "a", "#100", []⟩]
    getCommitWorkItems := fun _ _ => []
    getWorkItem := fun id => .ok ⟨id, if k = 0 then "A" else "B", "u"⟩ }

/-- C1 (counterexample to the claim as stated): two repositories both
resolve work item `100`, the first obtaining field snapshot `A` and the
second snapshot `B`; the consolidated set keeps the record of the
repository whose resolution occurred last (`B`), not the first-seen record
(`A`) — `new Map(...)` overwrites the value of an existing key. -/
theorem consolidated_keeps_last_seen_record :
    consolidatedWorkItems demoEnvSnapshots
        [⟨"r1", "R1", some "1.0", BumpType.minor⟩, ⟨"r2", "R2", some "1.0", BumpType.minor⟩]
      = [⟨"100", "B", "u"⟩]
    ∧ (processReleases demoEnvSnapshots
        [⟨"r1", "R1", some "1.0", BumpType.minor⟩,
          ⟨"r2", "R2", some "1.0", BumpType.minor⟩]).1.map (fun r => r.workItems)
      = [[⟨"100", "A", "u"⟩], [⟨"100", "B", "u"⟩]] := by
  exact ⟨by decide, by decide⟩

/-- C1 (amended): for every batch run, the batch accumulator is exactly the
union (concatenation) of the per-repository resolved work-item lists, with
failed repositories contributing the empty list; the consolidated list is
deduplicated by identifier — its identifiers are distinct and are exactly
the identifiers of the union — and for any identifier resolved more than
once the record kept is the one whose resolution occurred last in
processing order (the entry sits at the position of the identifier's first
occurrence, but its value is the last-seen record). -/
theorem processReleases_consolidation (env : Nat → AzureEnv) (repos : List Repository) :
    (processReleases env repos).2
        = ((processReleases env repos).1.map (fun r => r.workItems)).flatten
    ∧ (∀ r ∈ (processReleases env repos).1, r.success = false → r.workItems = [])
    ∧ ((consolidatedWorkItems env repos).map (fun w => w.id)).Nodup
    ∧ (∀ id, id ∈ (consolidatedWorkItems env repos).map (fun w => w.id)
        ↔ id ∈ (processReleases env repos).2.map (fun w => w.id))
    ∧ ∀ w ∈ consolidatedWorkItems env repos,
        ((processReleases env repos).2.filter (fun x => x.id = w.id)).getLast? = some w := by
  have hids : (consolidatedWorkItems env repos).map (fun w => w.id)
      = (buildMap (processReleases env repos).2).map Prod.fst := by
    rw [consolidatedWorkItems, jsMapDedup_eq_buildMap, List.map_map]
    exact List.map_congr_left
      (fun p hp => buildMap_entry_id (processReleases env repos).2 p hp)
  refine ⟨processReleasesGo_all env repos 0, ?_, ?_, ?_, ?_⟩
  · intro r hr hfail
    rw [processReleases, processReleasesGo_results env repos 0] at hr
    rcases List.mem_map.mp hr with ⟨p, _, rfl⟩
    exact processRepo_fail_empty (env p.1) p.2 hfail
  · rw [hids]
    exact buildMap_keys_nodup _
  · intro id
    rw [hids]
    exact buildMap_keys_mem _ id
  · intro w hw
    rw [consolidatedWorkItems, jsMapDedup_eq_buildMap] at hw
    rcases List.mem_map.mp hw with ⟨p, hp, rfl⟩
    rw [buildMap_entry_id _ p hp]
    exact buildMap_getLast _ p hp

/-- Witness for `processReleases_consolidation` on the two-snapshot batch:
the accumulator is the concatenation of the per-repository lists, the
consolidated identifiers are distinct, and the record kept for `100` is the
last resolved one. -/
theorem processReleases_consolidation_witness :
    (processReleases demoEnvSnapshots
        [⟨"r1", "R1", some "1.0", BumpType.minor⟩, ⟨"r2", "R2", some "1.0", BumpType.minor⟩]).2
      = ((processReleases demoEnvSnapshots
          [⟨"r1", "R1", some "1.0", BumpType.minor⟩,
            ⟨"r2", "R2", some "1.0", BumpType.minor⟩]).1.map (fun r => r.workItems)).flatten
    ∧ ((consolidatedWorkItems demoEnvSnapshots
        [⟨"r1", "R1", some "1.0", BumpType.minor⟩,
          ⟨"r2", "R2", some "1.0", BumpType.minor⟩]).map (fun w => w.id)).Nodup
    ∧ ((processReleases demoEnvSnapshots
        [⟨"r1", "R1", some "1.0", BumpType.minor⟩,
          ⟨"r2", "R2", some "1.0", BumpType.minor⟩]).2.filter
          (fun x => x.id = (⟨"100", "B", "u"⟩ : WorkItem).id)).getLast?
      = some ⟨"100", "B", "u"⟩ := by
  have h := processReleases_consolidation demoEnvSnapshots
    [⟨"r1", "R1", some "1.0", BumpType.minor⟩, ⟨"r2", "R2", some "1.0", BumpType.minor⟩]
  exact ⟨h.1, h.2.2.1, h.2.2.2.2 ⟨"100", "B", "u"⟩ (by decide)⟩

end ReleaseManager
